import Mathlib

/-!
Verification of the FunPay client's incremental reconciliation engine
(`src/client/poller.rs`) and its extractor functions
(`src/parsing/orders.rs`, `src/parsing/message.rs`), via a shallow
embedding in Lean 4.

Modelling conventions:
* Rust `i64` values are modelled as `Int`; string attribute parsing keeps
  Rust `i64::from_str` semantics (optional sign, all digits, 64-bit range).
* Rust `HashMap` is modelled as an association list (`List (K × V)`) with
  `mapInsert` replacing the first occurrence of a key.  HashMap iteration
  order is unspecified in Rust; the model fixes it to list order, which is
  sound for the claims proved here (they hold for every iteration order or
  are order-insensitive).
* The `scraper` HTML DOM library is external to the repository and total
  (parsing never fails); an HTML payload is therefore modelled as the data
  the selectors used by the source extract from it (attributes, class
  lists, descendant text), together with the raw string where the source
  inspects it (`html.is_empty()`).  The empty string parses to a document
  with no elements.
* Async transport calls (`post_runner`, `get_orders_trade`,
  `fetch_chats_histories`' network half) are modelled as cycle inputs of
  type `Except FunPayError _`.
* `OrderShortcut.price : f64` and the regex-derived fields `amount` and
  `subcategory` (plus `currency`, `date_text`) are elided: no claim reads
  them and `f64`/regex extraction is outside the embedding; the diff
  algorithms only compare `id` and `status`.
-/

namespace FunPay

/-- `enum OrderStatus` from `src/models/enums.rs`. -/
inductive OrderStatus where
  | Paid
  | Closed
  | Refunded
deriving DecidableEq

/-- `enum FunPayError` from `src/error.rs` (payloads reduced to strings). -/
inductive FunPayError where
  | Unauthorized
  | RequestFailed (status : Nat) (body : String) (url : String)
  | AccountNotInitiated
  | Parse (msg : String)
  | Io (msg : String)
  | Http (msg : String)
  | Middleware (msg : String)
deriving DecidableEq

/-- `struct ChatShortcut` from `src/models/mod.rs`. -/
structure ChatShortcut where
  id : Int
  name : String
  last_message_text : Option String
  node_msg_id : Int
  user_msg_id : Int
  unread : Bool
deriving DecidableEq

/-- `struct Message` from `src/models/mod.rs` (`ChatId` is a String newtype). -/
structure Message where
  id : Int
  chat_id : String
  chat_name : Option String
  text : Option String
  interlocutor_id : Option Int
  author_id : Int
deriving DecidableEq

/-- `struct OrderShortcut` from `src/models/mod.rs`, restricted to the
fields the reconciliation engine reads (see file header for the elisions). -/
structure OrderShortcut where
  id : String
  description : String
  buyer_username : String
  buyer_id : Int
  chat_id : String
  status : OrderStatus
deriving DecidableEq

/-- `enum Event` from `src/events.rs`. -/
inductive Event where
  | InitialChat (chat : ChatShortcut)
  | ChatsListChanged
  | LastChatMessageChanged (chat : ChatShortcut)
  | NewMessage (message : Message)
  | InitialOrder (order : OrderShortcut)
  | OrdersListChanged (purchases : Int) (sales : Int)
  | NewOrder (order : OrderShortcut)
  | OrderStatusChanged (order : OrderShortcut)
deriving DecidableEq

/-! ### Association-list model of `std::collections::HashMap` -/

/-- `HashMap::get`, first matching key. -/
def mapGet? {K V : Type} [DecidableEq K] : List (K × V) → K → Option V
  | [], _ => none
  | (k', v') :: rest, k => if k = k' then some v' else mapGet? rest k

/-- `HashMap::insert`: replace the binding of `k` in place, else append. -/
def mapInsert {K V : Type} [DecidableEq K] : List (K × V) → K → V → List (K × V)
  | [], k, v => [(k, v)]
  | (k', v') :: rest, k, v =>
      if k = k' then (k, v) :: rest else (k', v') :: mapInsert rest k v

/-- Key list of an association map. -/
def mapKeys {K V : Type} : List (K × V) → List K
  | [] => []
  | (k, _) :: rest => k :: mapKeys rest

@[simp] theorem mapKeys_nil {K V : Type} : mapKeys ([] : List (K × V)) = [] := rfl

@[simp] theorem mapKeys_cons {K V : Type} (k : K) (v : V) (m : List (K × V)) :
    mapKeys ((k, v) :: m) = k :: mapKeys m := rfl

theorem mem_mapKeys_of_mem {K V : Type} {m : List (K × V)} {kv : K × V}
    (h : kv ∈ m) : kv.1 ∈ mapKeys m := by
  induction m with
  | nil => simp at h
  | cons hd tl ih =>
      obtain ⟨k₀, v₀⟩ := hd
      rcases List.mem_cons.mp h with h | h
      · subst h; simp
      · simp [ih h]

theorem mapGet?_insert_self {K V : Type} [DecidableEq K]
    (m : List (K × V)) (k : K) (v : V) :
    mapGet? (mapInsert m k v) k = some v := by
  induction m with
  | nil => simp [mapInsert, mapGet?]
  | cons hd tl ih =>
      obtain ⟨k', v'⟩ := hd
      by_cases h : k = k' <;> simp [mapInsert, mapGet?, h, ih]

theorem mapGet?_insert_ne {K V : Type} [DecidableEq K]
    (m : List (K × V)) (k k' : K) (v : V) (h : k' ≠ k) :
    mapGet? (mapInsert m k v) k' = mapGet? m k' := by
  induction m with
  | nil => simp [mapInsert, mapGet?, h]
  | cons hd tl ih =>
      obtain ⟨k₀, v₀⟩ := hd
      by_cases hk : k = k₀
      · subst hk
        simp [mapInsert, mapGet?, h]
      · by_cases hk' : k' = k₀ <;> simp [mapInsert, mapGet?, hk, hk', ih]

theorem mapInsert_same {K V : Type} [DecidableEq K]
    (m : List (K × V)) (k : K) (v : V) (h : mapGet? m k = some v) :
    mapInsert m k v = m := by
  induction m with
  | nil => simp [mapGet?] at h
  | cons hd tl ih =>
      obtain ⟨k', v'⟩ := hd
      by_cases hk : k = k'
      · subst hk
        simp [mapGet?] at h
        simp [mapInsert, h]
      · simp [mapGet?, hk] at h
        simp [mapInsert, hk, ih h]

theorem mem_keys_of_mem_keys_insert {K V : Type} [DecidableEq K]
    (m : List (K × V)) (k k' : K) (v : V)
    (h : k' ∈ mapKeys (mapInsert m k v)) : k' ∈ mapKeys m ∨ k' = k := by
  induction m with
  | nil =>
      simp [mapInsert] at h
      exact Or.inr h
  | cons hd tl ih =>
      obtain ⟨k₀, v₀⟩ := hd
      by_cases hk : k = k₀
      · subst hk
        simp [mapInsert] at h ⊢
        rcases h with h | h
        · exact Or.inr h
        · exact Or.inl (Or.inr h)
      · simp [mapInsert, hk] at h ⊢
        rcases h with h | h
        · exact Or.inl (Or.inl h)
        · rcases ih h with h' | h'
          · exact Or.inl (Or.inr h')
          · exact Or.inr h'

theorem keys_nodup_insert {K V : Type} [DecidableEq K]
    (m : List (K × V)) (k : K) (v : V) (h : (mapKeys m).Nodup) :
    (mapKeys (mapInsert m k v)).Nodup := by
  induction m with
  | nil => simp [mapInsert]
  | cons hd tl ih =>
      obtain ⟨k₀, v₀⟩ := hd
      simp only [mapKeys_cons, List.nodup_cons] at h
      by_cases hk : k = k₀
      · subst hk
        have e : mapInsert ((k, v₀) :: tl) k v = (k, v) :: tl := by
          simp [mapInsert]
        rw [e, mapKeys_cons, List.nodup_cons]
        exact h
      · simp only [mapInsert, if_neg hk, mapKeys_cons, List.nodup_cons]
        constructor
        · intro hmem
          rcases mem_keys_of_mem_keys_insert tl k k₀ v hmem with h' | h'
          · exact h.1 h'
          · exact hk h'.symm
        · exact ih h.2

theorem mem_insert_elim {K V : Type} [DecidableEq K]
    (m : List (K × V)) (k : K) (v : V) (kv : K × V)
    (h : kv ∈ mapInsert m k v) : kv ∈ m ∨ kv = (k, v) := by
  induction m with
  | nil => simp [mapInsert] at h; exact Or.inr h
  | cons hd tl ih =>
      obtain ⟨k₀, v₀⟩ := hd
      by_cases hk : k = k₀
      · subst hk
        simp [mapInsert] at h
        rcases h with h | h
        · exact Or.inr (by simp [h])
        · exact Or.inl (by simp [h])
      · simp [mapInsert, hk] at h
        rcases h with h | h
        · exact Or.inl (by simp [h])
        · rcases ih h with h' | h'
          · exact Or.inl (by simp [h'])
          · exact Or.inr h'

theorem mapGet?_of_mem_nodup {K V : Type} [DecidableEq K]
    (m : List (K × V)) (k : K) (v : V)
    (hnd : (mapKeys m).Nodup) (hmem : (k, v) ∈ m) :
    mapGet? m k = some v := by
  induction m with
  | nil => simp at hmem
  | cons hd tl ih =>
      obtain ⟨k₀, v₀⟩ := hd
      simp only [mapKeys_cons, List.nodup_cons] at hnd
      rcases List.mem_cons.mp hmem with h | h
      · rw [Prod.mk.injEq] at h
        obtain ⟨hk, hv⟩ := h
        subst hk; subst hv
        simp [mapGet?]
      · have hk : k ≠ k₀ := by
          intro hkk
          subst hkk
          exact hnd.1 (mem_mapKeys_of_mem h)
        simp [mapGet?, hk]
        exact ih hnd.2 h

/-! ### Extractor layer

The `scraper` crate parses any string into a DOM without failing; the
structures below carry exactly the data the source's selector queries
read from that DOM, plus the raw string where the source inspects it. -/

/-- Digit-string to number; `none` unless the string is non-empty and all
digits (Rust `i64::from_str` digit core). -/
def digitsToNat? (cs : List Char) : Option Nat :=
  if cs = [] then none
  else if cs.all Char.isDigit then
    some (cs.foldl (fun a c => a * 10 + (c.toNat - 48)) 0)
  else none

/-- Rust `str::parse::<i64>()`: optional sign, digits, 64-bit range check. -/
def rustParseI64 (s : String) : Option Int :=
  let core : Option Int :=
    match s.data with
    | '+' :: rest => (digitsToNat? rest).map Int.ofNat
    | '-' :: rest => (digitsToNat? rest).map (fun n => -(Int.ofNat n))
    | cs => (digitsToNat? cs).map Int.ofNat
  core.bind (fun n =>
    if -(2 ^ 63) ≤ n ∧ n < 2 ^ 63 then some n else none)

/-- One element matched by `a.contact-item` in a chat-bookmarks fragment:
the attributes, classes and descendant texts read by
`FunPayPoller::parse_chat_bookmarks`. `none` models an absent attribute
or an absent descendant. -/
structure ContactItemEl where
  data_id : Option String
  data_node_msg : Option String
  data_user_msg : Option String
  classes : List String
  message_text : Option String
  name_text : Option String
deriving DecidableEq

/-- A parsed chat-bookmarks HTML fragment: the raw string (the engine
checks `html.is_empty()`) and the `a.contact-item` matches in document
order. The empty string parses to a fragment with no matches. -/
structure ChatBookmarksFragment where
  raw : String
  contact_items : List ContactItemEl
deriving DecidableEq

/-- `FunPayPoller::parse_chat_bookmarks` (`src/client/poller.rs`):
one `ChatShortcut` per `a.contact-item`, absent attributes defaulting to
`"0"`, unparseable numbers to `0`, absent name text to `""`. -/
def parse_chat_bookmarks (frag : ChatBookmarksFragment) : List ChatShortcut :=
  frag.contact_items.map (fun el =>
    { id := (rustParseI64 (el.data_id.getD "0")).getD 0
      name := (el.name_text.getD "")
      last_message_text := el.message_text
      node_msg_id := (rustParseI64 (el.data_node_msg.getD "0")).getD 0
      user_msg_id := (rustParseI64 (el.data_user_msg.getD "0")).getD 0
      unread := el.classes.contains "unread" })

/-- The DOM data read by `parse_message_html` (`src/parsing/message.rs`)
from a message fragment (after the `<br>` → `"\n"` replacement):
text of the first `div.chat-msg-text`, text of the first
`div[role=alert]`, and for the first `a.chat-img-link` (if any) its
`href` attribute (if any). -/
structure MessageDom where
  chat_msg_text : Option String
  alert_text : Option String
  img_link : Option (Option String)
deriving DecidableEq

/-- `parse_message_html` (`src/parsing/message.rs`): returns
`(text?, imageHref?)`, trying the three selectors in order, and
`(none, none)` when none matches — it never fails. -/
def parse_message_html (d : MessageDom) : Option String × Option String :=
  match d.chat_msg_text with
  | some t => (some t, none)
  | none =>
      match d.alert_text with
      | some t => (some t, none)
      | none =>
          match d.img_link with
          | some href => (none, href)
          | none => (none, none)

/-- One element matched by `a.tc-item` on the orders page: the data read
from it by `parse_orders_list` (`src/parsing/orders.rs`). Fields feeding
only the elided `OrderShortcut` fields (price, date, subcategory, amount)
are not carried. -/
structure OrderItemEl where
  classes : List String
  order_text : Option String
  desc_text : Option String
  buyer_text : Option String
  buyer_data_href : Option String
deriving DecidableEq

/-- A parsed orders page: whether a `div.user-link-name` element exists
(the logged-in marker) and the `a.tc-item` matches in document order.
The empty string parses to a document with neither. -/
structure OrdersDoc where
  has_user_link : Bool
  items : List OrderItemEl
deriving DecidableEq

/-- `buyer_id` extraction in `parse_orders_list`: split the `data-href`
attribute on `"/users/"`, take the tail, strip trailing `'/'`, parse. -/
def buyerIdOfHref (href : String) : Option Int :=
  ((href.splitOn "/users/").get? 1).bind (fun tail =>
    rustParseI64 (tail.dropRightWhile (fun c => c = '/')))

/-- Order id extraction: trimmed `div.tc-order` text with a leading `'#'`
stripped (`strip_prefix('#')`, falling back to the whole string). -/
def orderIdOfText (t : String) : String :=
  let t := t.trim
  if t.startsWith "#" then t.drop 1 else t

/-- `parse_orders_list` (`src/parsing/orders.rs`), restricted to the
fields the engine reads: errs with `Unauthorized` when the page has no
`div.user-link-name`; otherwise builds one `OrderShortcut` per `a.tc-item`
that has a `div.tc-order` child (items without one are skipped), with
missing fields defaulted (`""` / `0`). -/
def parse_orders_list (doc : OrdersDoc) (my_id : Int) :
    Except FunPayError (List OrderShortcut) :=
  if doc.has_user_link = false then
    Except.error FunPayError.Unauthorized
  else
    Except.ok (doc.items.filterMap (fun a =>
      let status :=
        if a.classes.contains "warning" then OrderStatus.Refunded
        else if a.classes.contains "info" then OrderStatus.Paid
        else OrderStatus.Closed
      match a.order_text with
      | none => none
      | some otext =>
          let id := orderIdOfText otext
          let description := (a.desc_text.getD "").trim
          let buyer_username := (a.buyer_text.map String.trim).getD ""
          let buyer_id := ((a.buyer_data_href.bind buyerIdOfHref)).getD 0
          let id1 := min my_id buyer_id
          let id2 := max my_id buyer_id
          some
            { id := id
              description := description
              buyer_username := buyer_username
              buyer_id := buyer_id
              chat_id := s!"users-{id1}-{id2}"
              status := status }))

/-! ### Reconciliation engine (`FunPayPoller`, `src/client/poller.rs`) -/

/-- The mutable state of `FunPayPoller`: the two continuation tags, the
chat baseline `last_messages : chat id → (node msg id, user msg id,
preview text)`, the persisted message cursor `last_messages_ids`, and the
order baseline `saved_orders`. -/
structure PollerState where
  last_msg_event_tag : String
  last_order_event_tag : String
  last_messages : List (Int × (Int × Int × Option String))
  last_messages_ids : List (Int × Int)
  saved_orders : List (String × OrderShortcut)
deriving DecidableEq

/-- One object of the multiplex response's `objects` array, reduced to
the JSON probes `parse_events_from_updates` performs on it:
`get("type").as_str()`, `get("tag").as_str()`,
`get("data").get("html").as_str()` (delivered as a parsed fragment),
`get("data").get("buyer").as_i64()` and `get("data").get("seller").as_i64()`. -/
structure UpdateObj where
  typ : Option String
  tag : Option String
  data_html : Option ChatBookmarksFragment
  data_buyer : Option Int
  data_seller : Option Int
deriving DecidableEq

/-- The multiplex response: `updates.get("objects").as_array()`. -/
structure Updates where
  objects : Option (List UpdateObj)
deriving DecidableEq

/-- Truncating cast `i64 -> i32` (Rust `as i32`). -/
def i32Wrap (n : Int) : Int := (n + 2 ^ 31) % 2 ^ 32 - 2 ^ 31

/-- First-cycle handling of a parsed chat list: push `InitialChat` for
every chat and collect as "changed" exactly those with
`node_msg_id > 0` (poller.rs lines 192–198). -/
def firstCycleChats : List ChatShortcut → List Event × List ChatShortcut
  | [] => ([], [])
  | ch :: rest =>
      let r := firstCycleChats rest
      (Event.InitialChat ch :: r.1,
       if 0 < ch.node_msg_id then ch :: r.2 else r.2)

/-- Non-first-cycle chat diff (poller.rs lines 203–217): compare each
chat's `node_msg_id` against the baseline entry (default `(-1, -1, none)`),
fire `LastChatMessageChanged` and mark changed when strictly greater, and
always overwrite the baseline entry afterwards.  Returns the new baseline,
the events, and the changed chats, each in payload order. -/
def diffChats (last : List (Int × (Int × Int × Option String))) :
    List ChatShortcut →
      List (Int × (Int × Int × Option String)) × List Event × List ChatShortcut
  | [] => (last, [], [])
  | ch :: rest =>
      let prev := (mapGet? last ch.id).getD (-1, -1, none)
      let fired := prev.1 < ch.node_msg_id
      let last1 :=
        mapInsert last ch.id (ch.node_msg_id, ch.user_msg_id, ch.last_message_text)
      let r := diffChats last1 rest
      (r.1,
       (if fired then [Event.LastChatMessageChanged ch] else []) ++ r.2.1,
       (if fired then [ch] else []) ++ r.2.2)

/-- `if let Some(tag) = obj.get("tag")... { self.last_msg_event_tag = tag }`. -/
def tagUpdatedMsg (s : PollerState) (tag : Option String) : PollerState :=
  match tag with
  | some t => { s with last_msg_event_tag := t }
  | none => s

/-- `if let Some(tag) = obj.get("tag")... { self.last_order_event_tag = tag }`. -/
def tagUpdatedOrder (s : PollerState) (tag : Option String) : PollerState :=
  match tag with
  | some t => { s with last_order_event_tag := t }
  | none => s

/-- Processing of one object of the multiplex response (one iteration of
the `for obj in objects` loop of `parse_events_from_updates`): tag update,
empty-payload skip, then the first-cycle or diff path for
`chat_bookmarks`, or an `OrdersListChanged` for `orders_counters`. -/
def processObject (s : PollerState) (first : Bool) (obj : UpdateObj) :
    PollerState × List Event × List ChatShortcut :=
  let typ := obj.typ.getD ""
  if typ = "chat_bookmarks" then
    let s1 := tagUpdatedMsg s obj.tag
    let html := obj.data_html.getD ⟨"", []⟩
    if html.raw.isEmpty then (s1, [], [])
    else
      let chats := parse_chat_bookmarks html
      if first then
        let r := firstCycleChats chats
        (s1, r.1, r.2)
      else
        let hdr : List Event := if chats.isEmpty then [] else [Event.ChatsListChanged]
        let r := diffChats s1.last_messages chats
        ({ s1 with last_messages := r.1 }, hdr ++ r.2.1, r.2.2)
  else if typ = "orders_counters" then
    let s1 := tagUpdatedOrder s obj.tag
    let purchases := i32Wrap (obj.data_buyer.getD 0)
    let sales := i32Wrap (obj.data_seller.getD 0)
    (s1, [Event.OrdersListChanged purchases sales], [])
  else (s, [], [])

/-- Sequential processing of the whole `objects` array, threading the
state and concatenating each object's events and changed chats in order
(the loop pushes each object's items contiguously). -/
def processObjects (s : PollerState) (first : Bool) :
    List UpdateObj → PollerState × List Event × List ChatShortcut
  | [] => (s, [], [])
  | obj :: rest =>
      let r1 := processObject s first obj
      let r2 := processObjects r1.1 first rest
      (r2.1, r1.2.1 ++ r2.2.1, r1.2.2 ++ r2.2.2)

/-- `FunPayPoller::parse_events_from_updates`: run the object loop on
`updates.objects` (missing or non-array → empty), and return the events
plus the changed chats projected to `(id, Some name)`. -/
def parse_events_from_updates (s : PollerState) (updates : Updates)
    (first : Bool) : PollerState × List Event × List (Int × Option String) :=
  let r := processObjects s first (updates.objects.getD [])
  (r.1, r.2.1, r.2.2.map (fun c => (c.id, some c.name)))

/-- Maximum of a list of `Int`s (Rust `Iterator::max`). -/
def listMaxI : List Int → Option Int
  | [] => none
  | x :: xs =>
      match listMaxI xs with
      | none => some x
      | some m => some (max x m)

/-- Per-chat history dedup loop of `FunPayPoller::start` (lines 81–96):
for each `(chat id, messages)` of the fetched histories, drop messages
with id ≤ the cursor entry (if any), advance the cursor entry to the
maximum surviving id (marking the cursor dirty when the entry was absent
or different), and — only on non-first cycles — emit every surviving
message as `NewMessage`.  Returns the new cursor map, the events, and
whether a persist is required. -/
def processHistory (first : Bool) (cursor : List (Int × Int)) :
    List (Int × List Message) → List (Int × Int) × List Event × Bool
  | [] => (cursor, [], false)
  | (cid, msgs) :: rest =>
      let msgs1 :=
        match mapGet? cursor cid with
        | some last_id => msgs.filter (fun (m : Message) => last_id < m.id)
        | none => msgs
      let step :=
        match listMaxI (msgs1.map (fun (m : Message) => m.id)) with
        | some max_id =>
            (mapInsert cursor cid max_id,
             match mapGet? cursor cid with
             | none => true
             | some v => decide (v ≠ max_id))
        | none => (cursor, false)
      let evs : List Event :=
        if first then [] else msgs1.map (fun m => Event.NewMessage m)
      let r := processHistory first step.1 rest
      (r.1, evs ++ r.2.1, step.2 || r.2.2)

/-- `new_map` construction in the order phase (lines 110–113): insert
every fetched order keyed by its id. -/
def buildOrderMap (list : List OrderShortcut) : List (String × OrderShortcut) :=
  list.foldl (fun m o => mapInsert m o.id o) []

/-- Events emitted for one entry of the new order map (lines 122–137):
a status change for a known order, `NewOrder` (plus an immediate
`OrderStatusChanged` when already closed) for an unknown one. -/
def orderEntryEvents (saved : List (String × OrderShortcut)) (id : String)
    (order : OrderShortcut) : List Event :=
  match mapGet? saved id with
  | some prev =>
      if prev.status ≠ order.status then [Event.OrderStatusChanged order]
      else []
  | none =>
      Event.NewOrder order ::
        (if order.status = OrderStatus.Closed then
           [Event.OrderStatusChanged order]
         else [])

/-- Per-order event emission of the non-empty-baseline branch (lines
121–138), over the whole new map in iteration order. -/
def orderDiffEvents (saved : List (String × OrderShortcut)) :
    List (String × OrderShortcut) → List Event
  | [] => []
  | (id, order) :: rest =>
      orderEntryEvents saved id order ++ orderDiffEvents saved rest

/-- Order phase on a successful sales fetch (lines 108–141): build the
new map; with an empty baseline emit `InitialOrder` for every entry,
otherwise diff; the baseline is replaced wholesale by the new map. -/
def processSales (saved : List (String × OrderShortcut))
    (list : List OrderShortcut) : List (String × OrderShortcut) × List Event :=
  let new_map := buildOrderMap list
  if saved.isEmpty then
    (new_map, new_map.map (fun kv => Event.InitialOrder kv.2))
  else
    (new_map, orderDiffEvents saved new_map)

/-- The inputs one iteration of the polling loop consumes from its
collaborators: the multiplex `post_runner` result, the
`fetch_chats_histories` result (as the chat-id → messages map it
returns, in drain order; consulted only when chats changed), and the
`fetch_sales_list` result. -/
structure CycleInput where
  fetch : Except FunPayError Updates
  histories : Except FunPayError (List (Int × List Message))
  sales : Except FunPayError (List OrderShortcut)

/-- The outcome of one loop iteration, with the emitted events split by
phase: multiplex-parse events, `NewMessage` events, sales-diff events. -/
structure CyclePhases where
  state : PollerState
  mpxEvents : List Event
  msgEvents : List Event
  salesEvents : List Event
  persisted : Bool
  first_after : Bool
deriving DecidableEq

/-- Phase (c)+(d) gate of one loop iteration (lines 77–106): when chats
changed, consume the history-fetch result — dedup and cursor update on
success, skip on error.  Returns the updated state, the `NewMessage`
events, and the persist flag. -/
def historyPhase (first : Bool) (s1 : PollerState)
    (changed : List (Int × Option String))
    (histories : Except FunPayError (List (Int × List Message))) :
    PollerState × List Event × Bool :=
  if changed.isEmpty then (s1, [], false)
  else
    match histories with
    | Except.ok hist =>
        let ph := processHistory first s1.last_messages_ids hist
        ({ s1 with last_messages_ids := ph.1 }, ph.2.1, ph.2.2)
    | Except.error _ => (s1, [], false)

/-- Phase (e) of one loop iteration (lines 108–145): on a successful
sales fetch, diff and replace the order baseline; on error skip. -/
def salesPhase (s2 : PollerState)
    (sales : Except FunPayError (List OrderShortcut)) :
    PollerState × List Event :=
  match sales with
  | Except.ok list =>
      let ps := processSales s2.saved_orders list
      ({ s2 with saved_orders := ps.1 }, ps.2)
  | Except.error _ => (s2, [])

/-- One iteration of the `loop` in `FunPayPoller::start`, phase by phase.
On a fetch error the iteration logs, sleeps and `continue`s: no state
change, no events, no persist, and `first` keeps its value (line 147 is
not reached).  On success: multiplex parse and event emission, then — if
any chats changed — history fetch and dedup (a history error only skips
that phase), a cursor persist when dirty, the order phase (an order-fetch
error only skips that phase), and `first := false`. -/
def runCyclePhases (s : PollerState) (first : Bool) (inp : CycleInput) :
    CyclePhases :=
  match inp.fetch with
  | Except.error _ => ⟨s, [], [], [], false, first⟩
  | Except.ok u =>
      let pe := parse_events_from_updates s u first
      let h3 := historyPhase first pe.1 pe.2.2 inp.histories
      let s2 := salesPhase h3.1 inp.sales
      ⟨s2.1, pe.2.1, h3.2.1, s2.2, h3.2.2, false⟩

/-- The observable outcome of one loop iteration: the state, the events
in emission order, whether `persist_last_messages_ids` was called, and
the value of `first` for the next iteration. -/
structure CycleOutput where
  state : PollerState
  events : List Event
  persisted : Bool
  first_after : Bool
deriving DecidableEq

/-- One loop iteration, with its events in the order the code sends them:
multiplex-parse events, then `NewMessage` events, then sales events. -/
def runCycle (s : PollerState) (first : Bool) (inp : CycleInput) :
    CycleOutput :=
  let p := runCyclePhases s first inp
  ⟨p.state, p.mpxEvents ++ p.msgEvents ++ p.salesEvents, p.persisted, p.first_after⟩

/-- A finite prefix of the polling loop: consume the per-cycle inputs in
order, concatenating the emitted events. -/
def runCycles (s : PollerState) (first : Bool) :
    List CycleInput → PollerState × Bool × List Event
  | [] => (s, first, [])
  | inp :: rest =>
      let out := runCycle s first inp
      let r := runCycles out.state out.first_after rest
      (r.1, r.2.1, out.events ++ r.2.2)

/-! ### Event classification predicates -/

/-- Is the event a `NewMessage`? -/
def Event.isNewMessage : Event → Bool
  | .NewMessage _ => true
  | _ => false

/-- Chat-related events in the sense of the spec's ordering claim. -/
def Event.isChatEvent : Event → Bool
  | .InitialChat _ => true
  | .ChatsListChanged => true
  | .LastChatMessageChanged _ => true
  | .NewMessage _ => true
  | _ => false

/-- Order-related events in the sense of the spec's ordering claim. -/
def Event.isOrderEvent : Event → Bool
  | .InitialOrder _ => true
  | .OrdersListChanged _ _ => true
  | .NewOrder _ => true
  | .OrderStatusChanged _ => true
  | _ => false

/-- Events the sales-diff phase can emit. -/
def Event.isSalesDiffEvent : Event → Bool
  | .InitialOrder _ => true
  | .NewOrder _ => true
  | .OrderStatusChanged _ => true
  | _ => false

/-- Is the event a `LastChatMessageChanged`? -/
def Event.isLastChatMessageChanged : Event → Bool
  | .LastChatMessageChanged _ => true
  | _ => false

/-- Is the event an `OrderStatusChanged`? -/
def Event.isOrderStatusChanged : Event → Bool
  | .OrderStatusChanged _ => true
  | _ => false

/-- Occurrence count of an event in an emission trace. -/
def countE (l : List Event) (e : Event) : Nat :=
  (l.filter (fun x => x = e)).length

/-! ### Concrete fixtures used by counterexamples and witnesses -/

/-- A contact item for chat 1, name "A", node/user message id 5. -/
def exChatEl : ContactItemEl := ⟨some "1", some "5", some "5", [], none, some "A"⟩

/-- A non-empty chat-bookmarks fragment containing only `exChatEl`. -/
def exFrag : ChatBookmarksFragment := ⟨"<a class=contact-item>", [exChatEl]⟩

/-- The chat summary `exFrag` parses to. -/
def exChatA : ChatShortcut := ⟨1, "A", none, 5, 5, false⟩

/-- A `chat_bookmarks` response object carrying `exFrag`. -/
def exChatObj : UpdateObj := ⟨some "chat_bookmarks", some "tag1", some exFrag, none, none⟩

/-- An `orders_counters` response object with no data fields. -/
def exCountersObj : UpdateObj := ⟨some "orders_counters", none, none, none, none⟩

/-- A start-of-run poller state: empty baselines and cursor. -/
def exState0 : PollerState := ⟨"m0", "o0", [], [], []⟩

/-- A cycle input whose multiplex response lists the counters object
before the chat-bookmarks object, as the request does. -/
def exInpA : CycleInput :=
  ⟨Except.ok ⟨some [exCountersObj, exChatObj]⟩, Except.ok [], Except.ok []⟩

/-- A cycle input carrying only a counters object. -/
def exCntInp : CycleInput :=
  ⟨Except.ok ⟨some [exCountersObj]⟩, Except.ok [], Except.ok []⟩

/-- A message with the given id in chat 7. -/
def exMsg (i : Int) : Message := ⟨i, "7", none, none, none, 0⟩

/-- Messages with ids 95 through 105 in ascending order. -/
def exMsgs : List Message := (List.range 11).map (fun k => exMsg (95 + (k : Int)))

/-- An order with the given id and status. -/
def exOrd (i : String) (st : OrderStatus) : OrderShortcut := ⟨i, "", "", 0, "c", st⟩

/-! ### Supporting lemmas about the engine's phases -/

theorem firstCycleChats_fst (chats : List ChatShortcut) :
    (firstCycleChats chats).1 = chats.map Event.InitialChat := by
  induction chats with
  | nil => rfl
  | cons ch rest ih => simp [firstCycleChats, ih]

theorem firstCycleChats_snd (chats : List ChatShortcut) :
    (firstCycleChats chats).2 =
      chats.filter (fun ch => 0 < ch.node_msg_id) := by
  induction chats with
  | nil => rfl
  | cons ch rest ih =>
      by_cases h : 0 < ch.node_msg_id <;>
        simp [firstCycleChats, List.filter, h, ih]

theorem diffChats_events_are_changes (last : List (Int × (Int × Int × Option String)))
    (chats : List ChatShortcut) :
    ∀ e ∈ (diffChats last chats).2.1, ∃ c, e = Event.LastChatMessageChanged c := by
  induction chats generalizing last with
  | nil => intro e he; simp [diffChats] at he
  | cons ch rest ih =>
      intro e he
      simp only [diffChats, List.mem_append] at he
      rcases he with he | he
      · rcases (by split at he <;> simp_all : e = Event.LastChatMessageChanged ch) with rfl
        exact ⟨ch, rfl⟩
      · exact ih _ e he

theorem diffChats_get_untouched (last : List (Int × (Int × Int × Option String)))
    (chats : List ChatShortcut) (k : Int)
    (hk : k ∉ chats.map (fun c => c.id)) :
    mapGet? (diffChats last chats).1 k = mapGet? last k := by
  induction chats generalizing last with
  | nil => rfl
  | cons ch rest ih =>
      simp only [List.map_cons, List.mem_cons] at hk
      push_neg at hk
      simp only [diffChats]
      rw [ih _ hk.2, mapGet?_insert_ne _ _ _ _ hk.1]

theorem diffChats_get_final (last : List (Int × (Int × Int × Option String)))
    (chats : List ChatShortcut)
    (hnd : (chats.map (fun c => c.id)).Nodup) :
    ∀ ch ∈ chats,
      mapGet? (diffChats last chats).1 ch.id =
        some (ch.node_msg_id, ch.user_msg_id, ch.last_message_text) := by
  induction chats generalizing last with
  | nil => intro ch hch; simp at hch
  | cons ch0 rest ih =>
      simp only [List.map_cons, List.nodup_cons] at hnd
      intro ch hch
      rcases List.mem_cons.mp hch with rfl | hch
      · simp only [diffChats]
        rw [diffChats_get_untouched _ _ _ hnd.1]
        exact mapGet?_insert_self _ _ _
      · exact ih _ hnd.2 ch hch

theorem diffChats_stable (last : List (Int × (Int × Int × Option String)))
    (chats : List ChatShortcut)
    (h : ∀ ch ∈ chats,
        mapGet? last ch.id =
          some (ch.node_msg_id, ch.user_msg_id, ch.last_message_text)) :
    diffChats last chats = (last, [], []) := by
  induction chats generalizing last with
  | nil => rfl
  | cons ch rest ih =>
      have hch := h ch (List.mem_cons_self ch rest)
      have hins :
          mapInsert last ch.id
              (ch.node_msg_id, ch.user_msg_id, ch.last_message_text) = last :=
        mapInsert_same _ _ _ hch
      have hfire :
          ¬ ((mapGet? last ch.id).getD (-1, -1, none)).1 < ch.node_msg_id := by
        rw [hch]
        simp
      simp only [diffChats, hins, if_neg hfire]
      rw [ih last (fun c hc => h c (List.mem_cons_of_mem ch hc))]
      simp [hfire]

theorem diffChats_fires_from_default
    (last : List (Int × (Int × Int × Option String)))
    (chats : List ChatShortcut)
    (hnd : (chats.map (fun c => c.id)).Nodup)
    (habs : ∀ ch ∈ chats, mapGet? last ch.id = none) :
    ∀ ch ∈ chats, 0 ≤ ch.node_msg_id →
      Event.LastChatMessageChanged ch ∈ (diffChats last chats).2.1 := by
  induction chats generalizing last with
  | nil => intro ch hch; simp at hch
  | cons ch0 rest ih =>
      simp only [List.map_cons, List.nodup_cons] at hnd
      intro ch hch hnode
      rcases List.mem_cons.mp hch with rfl | hch
      · have hget := habs ch (List.mem_cons_self ch rest)
        have hfire : ((mapGet? last ch.id).getD (-1, -1, none)).1 < ch.node_msg_id := by
          rw [hget]
          show (-1 : Int) < ch.node_msg_id
          omega
        simp only [diffChats, List.mem_append]
        exact Or.inl (by simp [hfire])
      · have habs' : ∀ c ∈ rest,
            mapGet? (mapInsert last ch0.id
              (ch0.node_msg_id, ch0.user_msg_id, ch0.last_message_text)) c.id = none := by
          intro c hc
          have hne : c.id ≠ ch0.id := by
            intro he
            exact hnd.1 (he ▸ List.mem_map_of_mem (fun x => x.id) hc)
          rw [mapGet?_insert_ne _ _ _ _ hne]
          exact habs c (List.mem_cons_of_mem ch0 hc)
        have := ih _ hnd.2 habs' ch hch hnode
        simp only [diffChats, List.mem_append]
        exact Or.inr this

@[simp] theorem tagUpdatedMsg_last_messages (s : PollerState) (tag : Option String) :
    (tagUpdatedMsg s tag).last_messages = s.last_messages := by
  cases tag <;> rfl

@[simp] theorem tagUpdatedMsg_last_messages_ids (s : PollerState) (tag : Option String) :
    (tagUpdatedMsg s tag).last_messages_ids = s.last_messages_ids := by
  cases tag <;> rfl

@[simp] theorem tagUpdatedMsg_saved_orders (s : PollerState) (tag : Option String) :
    (tagUpdatedMsg s tag).saved_orders = s.saved_orders := by
  cases tag <;> rfl

@[simp] theorem tagUpdatedOrder_last_messages (s : PollerState) (tag : Option String) :
    (tagUpdatedOrder s tag).last_messages = s.last_messages := by
  cases tag <;> rfl

@[simp] theorem tagUpdatedOrder_last_messages_ids (s : PollerState) (tag : Option String) :
    (tagUpdatedOrder s tag).last_messages_ids = s.last_messages_ids := by
  cases tag <;> rfl

@[simp] theorem tagUpdatedOrder_saved_orders (s : PollerState) (tag : Option String) :
    (tagUpdatedOrder s tag).saved_orders = s.saved_orders := by
  cases tag <;> rfl

theorem processObject_mpx_shape (s : PollerState) (first : Bool) (obj : UpdateObj) :
    ∀ e ∈ (processObject s first obj).2.1,
      Event.isNewMessage e = false ∧ Event.isSalesDiffEvent e = false := by
  intro e he
  simp only [processObject] at he
  split at he
  · split at he
    · simp at he
    · split at he
      · dsimp only at he
        rw [firstCycleChats_fst] at he
        simp only [List.mem_map] at he
        obtain ⟨c, -, rfl⟩ := he
        exact ⟨rfl, rfl⟩
      · dsimp only at he
        simp only [List.mem_append] at he
        rcases he with he | he
        · split at he <;> simp_all [Event.isNewMessage, Event.isSalesDiffEvent]
        · obtain ⟨c, rfl⟩ := diffChats_events_are_changes _ _ e he
          exact ⟨rfl, rfl⟩
  · split at he
    · dsimp only at he
      simp only [List.mem_singleton] at he
      subst he
      exact ⟨rfl, rfl⟩
    · simp at he

theorem processObjects_mpx_shape (s : PollerState) (first : Bool)
    (objs : List UpdateObj) :
    ∀ e ∈ (processObjects s first objs).2.1,
      Event.isNewMessage e = false ∧ Event.isSalesDiffEvent e = false := by
  induction objs generalizing s with
  | nil => intro e he; simp [processObjects] at he
  | cons obj rest ih =>
      intro e he
      simp only [processObjects, List.mem_append] at he
      rcases he with he | he
      · exact processObject_mpx_shape s first obj e he
      · exact ih _ e he

theorem listMaxI_mem {l : List Int} {m : Int} (h : listMaxI l = some m) : m ∈ l := by
  induction l with
  | nil => simp [listMaxI] at h
  | cons x xs ih =>
      simp only [listMaxI] at h
      split at h
      · simp at h
        simp [h]
      · rename_i m' hm'
        simp at h
        rcases max_choice x m' with hc | hc
        · simp [← h, hc]
        · exact List.mem_cons_of_mem x (ih (by rw [hm', ← h, hc]))

theorem processHistory_first_no_events (cursor : List (Int × Int))
    (hist : List (Int × List Message)) :
    (processHistory true cursor hist).2.1 = [] := by
  induction hist generalizing cursor with
  | nil => rfl
  | cons hd rest ih =>
      obtain ⟨cid, msgs⟩ := hd
      simp only [processHistory, if_pos rfl, List.nil_append]
      exact ih _

theorem processHistory_events_are_messages (first : Bool)
    (cursor : List (Int × Int)) (hist : List (Int × List Message)) :
    ∀ e ∈ (processHistory first cursor hist).2.1,
      Event.isNewMessage e = true := by
  induction hist generalizing cursor with
  | nil => intro e he; simp [processHistory] at he
  | cons hd rest ih =>
      obtain ⟨cid, msgs⟩ := hd
      intro e he
      simp only [processHistory, List.mem_append] at he
      rcases he with he | he
      · split at he
        · simp at he
        · simp only [List.mem_map] at he
          obtain ⟨m, -, rfl⟩ := he
          rfl
      · exact ih _ e he

theorem processHistory_cursor_mono (first : Bool)
    (hist : List (Int × List Message)) (cursor : List (Int × Int))
    (cid v : Int) (h : mapGet? cursor cid = some v) :
    ∃ v', mapGet? (processHistory first cursor hist).1 cid = some v' ∧ v ≤ v' := by
  induction hist generalizing cursor v with
  | nil => exact ⟨v, h, le_refl v⟩
  | cons hd rest ih =>
      obtain ⟨cid', msgs⟩ := hd
      simp only [processHistory]
      by_cases hc : cid' = cid
      · subst hc
        rw [h]
        cases hmx : listMaxI ((msgs.filter (fun m => v < m.id)).map (fun m => m.id)) with
        | none =>
            simp only [hmx]
            exact ih _ v h
        | some mx =>
            have hmem := listMaxI_mem hmx
            simp only [List.mem_map] at hmem
            obtain ⟨m, hm, rfl⟩ := hmem
            have hv : v < m.id := by
              have := List.of_mem_filter hm
              simpa using this
            simp only [hmx]
            obtain ⟨v', hv', hle⟩ :=
              ih (mapInsert cursor cid' m.id) m.id (mapGet?_insert_self _ _ _)
            exact ⟨v', hv', le_trans (le_of_lt hv) hle⟩
      · have hget : mapGet? cursor cid = some v := h
        cases hget' : mapGet? cursor cid' with
        | none =>
            simp only [hget']
            cases hmx : listMaxI (msgs.map (fun m => m.id)) with
            | none => simp only [hmx]; exact ih _ v h
            | some mx =>
                simp only [hmx]
                refine ih _ v ?_
                rw [mapGet?_insert_ne _ _ _ _ (fun he => hc he.symm)]
                exact h
        | some w =>
            simp only [hget']
            cases hmx : listMaxI ((msgs.filter (fun m => w < m.id)).map (fun m => m.id)) with
            | none => simp only [hmx]; exact ih _ v h
            | some mx =>
                simp only [hmx]
                refine ih _ v ?_
                rw [mapGet?_insert_ne _ _ _ _ (fun he => hc he.symm)]
                exact h

theorem processObject_saved_orders (s : PollerState) (first : Bool) (obj : UpdateObj) :
    (processObject s first obj).1.saved_orders = s.saved_orders := by
  simp only [processObject]
  split
  · split
    · simp
    · split <;> simp
  · split <;> simp

theorem processObject_last_messages_ids (s : PollerState) (first : Bool)
    (obj : UpdateObj) :
    (processObject s first obj).1.last_messages_ids = s.last_messages_ids := by
  simp only [processObject]
  split
  · split
    · simp
    · split <;> simp
  · split <;> simp

theorem processObject_first_last_messages (s : PollerState) (obj : UpdateObj) :
    (processObject s true obj).1.last_messages = s.last_messages := by
  simp only [processObject]
  split
  · split
    · simp
    · simp
  · split <;> simp

theorem processObjects_saved_orders (s : PollerState) (first : Bool)
    (objs : List UpdateObj) :
    (processObjects s first objs).1.saved_orders = s.saved_orders := by
  induction objs generalizing s with
  | nil => rfl
  | cons obj rest ih =>
      simp only [processObjects]
      rw [ih, processObject_saved_orders]

theorem processObjects_last_messages_ids (s : PollerState) (first : Bool)
    (objs : List UpdateObj) :
    (processObjects s first objs).1.last_messages_ids = s.last_messages_ids := by
  induction objs generalizing s with
  | nil => rfl
  | cons obj rest ih =>
      simp only [processObjects]
      rw [ih, processObject_last_messages_ids]

theorem processObjects_first_last_messages (s : PollerState)
    (objs : List UpdateObj) :
    (processObjects s true objs).1.last_messages = s.last_messages := by
  induction objs generalizing s with
  | nil => rfl
  | cons obj rest ih =>
      simp only [processObjects]
      rw [ih, processObject_first_last_messages]

theorem orderEntryEvents_shape (saved : List (String × OrderShortcut))
    (id : String) (order : OrderShortcut) :
    ∀ e ∈ orderEntryEvents saved id order, Event.isSalesDiffEvent e = true := by
  intro e he
  unfold orderEntryEvents at he
  split at he
  · split at he
    · simp only [List.mem_singleton] at he
      subst he; rfl
    · simp at he
  · simp only [List.mem_cons] at he
    rcases he with rfl | he
    · rfl
    · split at he
      · simp only [List.mem_singleton] at he
        subst he; rfl
      · simp at he

theorem orderDiffEvents_shape (saved m : List (String × OrderShortcut)) :
    ∀ e ∈ orderDiffEvents saved m, Event.isSalesDiffEvent e = true := by
  induction m with
  | nil => intro e he; simp [orderDiffEvents] at he
  | cons hd rest ih =>
      obtain ⟨id, order⟩ := hd
      intro e he
      simp only [orderDiffEvents, List.mem_append] at he
      rcases he with he | he
      · exact orderEntryEvents_shape _ _ _ e he
      · exact ih e he

theorem processSales_events_shape (saved : List (String × OrderShortcut))
    (list : List OrderShortcut) :
    ∀ e ∈ (processSales saved list).2, Event.isSalesDiffEvent e = true := by
  intro e he
  simp only [processSales] at he
  split at he
  · simp only [List.mem_map] at he
    obtain ⟨kv, -, rfl⟩ := he
    rfl
  · exact orderDiffEvents_shape _ _ e he

theorem buildOrderMap_keys_nodup_aux (list : List OrderShortcut)
    (m : List (String × OrderShortcut)) (hm : (mapKeys m).Nodup) :
    (mapKeys (list.foldl (fun m o => mapInsert m o.id o) m)).Nodup := by
  induction list generalizing m with
  | nil => exact hm
  | cons o rest ih =>
      simp only [List.foldl_cons]
      exact ih _ (keys_nodup_insert _ _ _ hm)

theorem buildOrderMap_keys_nodup (list : List OrderShortcut) :
    (mapKeys (buildOrderMap list)).Nodup :=
  buildOrderMap_keys_nodup_aux list [] (by simp)

theorem buildOrderMap_val_id_aux (list : List OrderShortcut)
    (m : List (String × OrderShortcut))
    (hm : ∀ kv ∈ m, (kv : String × OrderShortcut).2.id = kv.1) :
    ∀ kv ∈ list.foldl (fun m o => mapInsert m o.id o) m,
      (kv : String × OrderShortcut).2.id = kv.1 := by
  induction list generalizing m with
  | nil => exact hm
  | cons o rest ih =>
      simp only [List.foldl_cons]
      refine ih _ ?_
      intro kv hkv
      rcases mem_insert_elim _ _ _ _ hkv with h | h
      · exact hm kv h
      · subst h; rfl

theorem buildOrderMap_val_id (list : List OrderShortcut) :
    ∀ kv ∈ buildOrderMap list, (kv : String × OrderShortcut).2.id = kv.1 :=
  buildOrderMap_val_id_aux list [] (by simp)

theorem orderDiffEvents_nil_of_match (saved m : List (String × OrderShortcut))
    (h : ∀ kv ∈ m, mapGet? saved (kv : String × OrderShortcut).1 = some kv.2) :
    orderDiffEvents saved m = [] := by
  induction m with
  | nil => rfl
  | cons hd rest ih =>
      obtain ⟨id, order⟩ := hd
      have hget := h (id, order) (List.mem_cons_self _ _)
      simp only at hget
      simp only [orderDiffEvents, orderEntryEvents, hget]
      rw [if_neg (by simp), ih (fun kv hkv => h kv (List.mem_cons_of_mem _ hkv))]
      rfl

theorem parse_events_lmi (s : PollerState) (u : Updates) (first : Bool) :
    (parse_events_from_updates s u first).1.last_messages_ids =
      s.last_messages_ids := by
  simp only [parse_events_from_updates]
  exact processObjects_last_messages_ids _ _ _

theorem parse_events_saved (s : PollerState) (u : Updates) (first : Bool) :
    (parse_events_from_updates s u first).1.saved_orders = s.saved_orders := by
  simp only [parse_events_from_updates]
  exact processObjects_saved_orders _ _ _

theorem parse_events_first_lm (s : PollerState) (u : Updates) :
    (parse_events_from_updates s u true).1.last_messages = s.last_messages := by
  simp only [parse_events_from_updates]
  exact processObjects_first_last_messages _ _

theorem historyPhase_state_lm (first : Bool) (s1 : PollerState)
    (changed : List (Int × Option String))
    (hi : Except FunPayError (List (Int × List Message))) :
    (historyPhase first s1 changed hi).1.last_messages = s1.last_messages := by
  unfold historyPhase
  split
  · rfl
  · cases hi <;> rfl

theorem historyPhase_state_saved (first : Bool) (s1 : PollerState)
    (changed : List (Int × Option String))
    (hi : Except FunPayError (List (Int × List Message))) :
    (historyPhase first s1 changed hi).1.saved_orders = s1.saved_orders := by
  unfold historyPhase
  split
  · rfl
  · cases hi <;> rfl

theorem historyPhase_first_events (s1 : PollerState)
    (changed : List (Int × Option String))
    (hi : Except FunPayError (List (Int × List Message))) :
    (historyPhase true s1 changed hi).2.1 = [] := by
  unfold historyPhase
  split
  · rfl
  · cases hi with
    | ok hist => exact processHistory_first_no_events _ _
    | error e => rfl

theorem historyPhase_events_shape (first : Bool) (s1 : PollerState)
    (changed : List (Int × Option String))
    (hi : Except FunPayError (List (Int × List Message))) :
    ∀ e ∈ (historyPhase first s1 changed hi).2.1,
      Event.isNewMessage e = true := by
  unfold historyPhase
  split
  · intro e he; simp at he
  · cases hi with
    | ok hist => exact processHistory_events_are_messages _ _ _
    | error err => intro e he; simp at he

theorem historyPhase_cursor_mono (first : Bool) (s1 : PollerState)
    (changed : List (Int × Option String))
    (hi : Except FunPayError (List (Int × List Message))) (cid v : Int)
    (h : mapGet? s1.last_messages_ids cid = some v) :
    ∃ v', mapGet? (historyPhase first s1 changed hi).1.last_messages_ids cid =
        some v' ∧ v ≤ v' := by
  unfold historyPhase
  split
  · exact ⟨v, h, le_refl v⟩
  · cases hi with
    | ok hist => exact processHistory_cursor_mono first hist _ cid v h
    | error err => exact ⟨v, h, le_refl v⟩

theorem salesPhase_state_lm (s2 : PollerState)
    (sa : Except FunPayError (List OrderShortcut)) :
    (salesPhase s2 sa).1.last_messages = s2.last_messages := by
  cases sa <;> rfl

theorem salesPhase_state_lmi (s2 : PollerState)
    (sa : Except FunPayError (List OrderShortcut)) :
    (salesPhase s2 sa).1.last_messages_ids = s2.last_messages_ids := by
  cases sa <;> rfl

theorem salesPhase_events_shape (s2 : PollerState)
    (sa : Except FunPayError (List OrderShortcut)) :
    ∀ e ∈ (salesPhase s2 sa).2, Event.isSalesDiffEvent e = true := by
  cases sa with
  | ok list => exact processSales_events_shape _ _
  | error err => intro e he; simp [salesPhase] at he

theorem runCyclePhases_mpx_shape (s : PollerState) (first : Bool)
    (inp : CycleInput) :
    ∀ e ∈ (runCyclePhases s first inp).mpxEvents,
      Event.isNewMessage e = false ∧ Event.isSalesDiffEvent e = false := by
  obtain ⟨fe, hi, sa⟩ := inp
  cases fe with
  | error e0 => intro e he; simp [runCyclePhases] at he
  | ok u =>
      intro e he
      simp only [runCyclePhases, parse_events_from_updates] at he
      exact processObjects_mpx_shape _ _ _ e he

theorem runCyclePhases_msg_shape (s : PollerState) (first : Bool)
    (inp : CycleInput) :
    ∀ e ∈ (runCyclePhases s first inp).msgEvents,
      Event.isNewMessage e = true := by
  obtain ⟨fe, hi, sa⟩ := inp
  cases fe with
  | error e0 => intro e he; simp [runCyclePhases] at he
  | ok u =>
      intro e he
      simp only [runCyclePhases] at he
      exact historyPhase_events_shape _ _ _ _ e he

theorem runCyclePhases_sales_shape (s : PollerState) (first : Bool)
    (inp : CycleInput) :
    ∀ e ∈ (runCyclePhases s first inp).salesEvents,
      Event.isSalesDiffEvent e = true := by
  obtain ⟨fe, hi, sa⟩ := inp
  cases fe with
  | error e0 => intro e he; simp [runCyclePhases] at he
  | ok u =>
      intro e he
      simp only [runCyclePhases] at he
      exact salesPhase_events_shape _ _ e he

theorem runCyclePhases_first_msgEvents (s : PollerState) (inp : CycleInput) :
    (runCyclePhases s true inp).msgEvents = [] := by
  obtain ⟨fe, hi, sa⟩ := inp
  cases fe with
  | error e0 => rfl
  | ok u =>
      simp only [runCyclePhases]
      exact historyPhase_first_events _ _ _

theorem countE_append (l1 l2 : List Event) (e : Event) :
    countE (l1 ++ l2) e = countE l1 e + countE l2 e := by
  simp [countE, List.filter_append]

theorem orderEntryEvents_count_ne (saved : List (String × OrderShortcut))
    (id : String) (order o : OrderShortcut) (hne : order ≠ o) :
    countE (orderEntryEvents saved id order) (Event.OrderStatusChanged o) = 0 ∧
    countE (orderEntryEvents saved id order) (Event.NewOrder o) = 0 := by
  unfold orderEntryEvents
  cases mapGet? saved id with
  | some prev => split <;> simp [countE, hne]
  | none => split <;> simp [countE, hne]

theorem orderDiffEvents_count_zero (saved m : List (String × OrderShortcut))
    (o : OrderShortcut)
    (hval : ∀ kv ∈ m, (kv : String × OrderShortcut).2.id = kv.1)
    (habs : o.id ∉ mapKeys m) :
    countE (orderDiffEvents saved m) (Event.OrderStatusChanged o) = 0 ∧
    countE (orderDiffEvents saved m) (Event.NewOrder o) = 0 := by
  induction m with
  | nil => exact ⟨rfl, rfl⟩
  | cons hd rest ih =>
      obtain ⟨id, order⟩ := hd
      simp only [mapKeys_cons, List.mem_cons] at habs
      push_neg at habs
      have hordid : order.id = id := hval (id, order) (List.mem_cons_self _ _)
      have hne : order ≠ o := by
        intro he
        exact habs.1 (by rw [← hordid, he])
      have hz := orderEntryEvents_count_ne saved id order o hne
      have hrec := ih (fun kv hkv => hval kv (List.mem_cons_of_mem _ hkv)) habs.2
      simp only [orderDiffEvents, countE_append, hz.1, hz.2, hrec.1, hrec.2]
      exact ⟨trivial, trivial⟩

theorem orderDiffEvents_count_unique (saved m : List (String × OrderShortcut))
    (hnd : (mapKeys m).Nodup)
    (hval : ∀ kv ∈ m, (kv : String × OrderShortcut).2.id = kv.1)
    (o p : OrderShortcut) (hmem : (o.id, o) ∈ m)
    (hprev : mapGet? saved o.id = some p) (hdiff : p.status ≠ o.status) :
    countE (orderDiffEvents saved m) (Event.OrderStatusChanged o) = 1 ∧
    countE (orderDiffEvents saved m) (Event.NewOrder o) = 0 := by
  induction m with
  | nil => simp at hmem
  | cons hd rest ih =>
      obtain ⟨id, order⟩ := hd
      simp only [mapKeys_cons, List.nodup_cons] at hnd
      rcases List.mem_cons.mp hmem with heq | hmem'
      · rw [Prod.mk.injEq] at heq
        obtain ⟨hid, hord⟩ := heq
        subst hord
        have hhead : orderEntryEvents saved id o = [Event.OrderStatusChanged o] := by
          unfold orderEntryEvents
          rw [← hid, hprev]
          simp [hdiff]
        have hz := orderDiffEvents_count_zero saved rest o
          (fun kv hkv => hval kv (List.mem_cons_of_mem _ hkv)) (hid ▸ hnd.1)
        simp only [orderDiffEvents, countE_append, hhead, hz.1, hz.2]
        constructor <;> simp [countE]
      · have hidne : id ≠ o.id := by
          intro he
          exact hnd.1 (he ▸ mem_mapKeys_of_mem hmem')
        have hordne : order ≠ o := by
          intro he
          have hordid : order.id = id := hval (id, order) (List.mem_cons_self _ _)
          rw [he] at hordid
          exact hidne hordid.symm
        have hz := orderEntryEvents_count_ne saved id order o hordne
        have hrec := ih hnd.2 (fun kv hkv => hval kv (List.mem_cons_of_mem _ hkv))
          hmem'
        simp only [orderDiffEvents, countE_append, hz.1, hz.2, hrec.1, hrec.2]
        exact ⟨trivial, trivial⟩

theorem orderDiffEvents_new_closed_adjacent
    (saved m : List (String × OrderShortcut)) (o : OrderShortcut)
    (hmem : (o.id, o) ∈ m) (habs : mapGet? saved o.id = none)
    (hclosed : o.status = OrderStatus.Closed) :
    ∃ pre post, orderDiffEvents saved m =
      pre ++ Event.NewOrder o :: Event.OrderStatusChanged o :: post := by
  induction m with
  | nil => simp at hmem
  | cons hd rest ih =>
      obtain ⟨id, order⟩ := hd
      rcases List.mem_cons.mp hmem with heq | hmem'
      · rw [Prod.mk.injEq] at heq
        obtain ⟨hid, hord⟩ := heq
        subst hord
        refine ⟨[], orderDiffEvents saved rest, ?_⟩
        simp only [orderDiffEvents]
        unfold orderEntryEvents
        rw [← hid, habs]
        simp [hclosed]
      · obtain ⟨pre, post, hpp⟩ := ih hmem'
        exact ⟨orderEntryEvents saved id order ++ pre, post, by
          simp only [orderDiffEvents, hpp, List.append_assoc]⟩

theorem processSales_state (saved : List (String × OrderShortcut))
    (list : List OrderShortcut) :
    (processSales saved list).1 = buildOrderMap list := by
  simp only [processSales]
  split <;> rfl

theorem processSales_replay_no_osc (saved : List (String × OrderShortcut))
    (list : List OrderShortcut) (hsaved : saved = buildOrderMap list) :
    ∀ e ∈ (processSales saved list).2, Event.isOrderStatusChanged e = false := by
  intro e he
  simp only [processSales] at he
  split at he
  · simp only [List.mem_map] at he
    obtain ⟨kv, -, rfl⟩ := he
    rfl
  · rw [hsaved, orderDiffEvents_nil_of_match] at he
    · simp at he
    · intro kv hkv
      exact mapGet?_of_mem_nodup _ _ _ (buildOrderMap_keys_nodup list)
        (by simpa using hkv)

theorem filter_shape_nil {p : Event → Bool} {l : List Event}
    (h : ∀ e ∈ l, p e = false) : l.filter p = [] := by
  induction l with
  | nil => rfl
  | cons a l ih =>
      rw [List.filter_cons, if_neg (by simp [h a (List.mem_cons_self a l)])]
      exact ih (fun e he => h e (List.mem_cons_of_mem a he))

/-- A cycle input whose multiplex response carries one `chat_bookmarks`
object with the given fragment. -/
def mkChatInput (tag : Option String) (f : ChatBookmarksFragment)
    (hi : Except FunPayError (List (Int × List Message)))
    (sa : Except FunPayError (List OrderShortcut)) : CycleInput :=
  ⟨Except.ok ⟨some [⟨some "chat_bookmarks", tag, some f, none, none⟩]⟩, hi, sa⟩

/-- A cycle input whose multiplex response carries an `orders_counters`
object followed by a `chat_bookmarks` object (the order of the request),
and whose sales fetch succeeds with the given list. -/
def mkMpxInput (tagO tagC : Option String) (buyer seller : Option Int)
    (f : ChatBookmarksFragment)
    (hi : Except FunPayError (List (Int × List Message)))
    (list : List OrderShortcut) : CycleInput :=
  ⟨Except.ok ⟨some [⟨some "orders_counters", tagO, none, buyer, seller⟩,
      ⟨some "chat_bookmarks", tagC, some f, none, none⟩]⟩, hi, Except.ok list⟩

/-! ### Claim theorems -/

/-- Claim C6 (confirmed): a failed multiplex fetch is a complete no-op —
the returned state (chat baseline, order baseline, message cursor and
both continuation tags) is the pre-cycle state, no event is emitted, no
cursor-store write happens, and `first` is not cleared. -/
theorem c6_fetch_error_noop (s : PollerState) (first : Bool) (e : FunPayError)
    (h : Except FunPayError (List (Int × List Message)))
    (sl : Except FunPayError (List OrderShortcut)) :
    runCycle s first ⟨Except.error e, h, sl⟩ =
      ⟨s, [], false, first⟩ := rfl

/-- Claim C1, counterexample: the claim says a fatal `Unauthorized`
multiplex error is propagated to the caller of `start` and not retried.
In the code the error arm of the fetch match treats every error alike:
after an `Unauthorized` fetch the iteration is a no-op (first conjunct)
and the loop goes on to run the next cycle, whose events are still
emitted (second conjunct) — so the error was retried, not propagated. -/
theorem c1_counterexample :
    runCycle exState0 true
        ⟨Except.error FunPayError.Unauthorized, Except.ok [], Except.ok []⟩ =
      ⟨exState0, [], false, true⟩ ∧
    (runCycles exState0 true
        [⟨Except.error FunPayError.Unauthorized, Except.ok [], Except.ok []⟩,
          exCntInp]).2.2 = [Event.OrdersListChanged 0 0] :=
  ⟨rfl, rfl⟩

/-- Claim C1 as amended: every multiplex fetch error — `Unauthorized`
included — is handled identically: logged, followed by the fixed
error-retry delay, and the cycle restarts from phase (a) with the state
and the `first` flag untouched; no error is ever propagated out of
`start`. Restarting with unchanged state is exactly dropping the failed
cycle from the run. -/
theorem c1_amended_every_error_retried (s : PollerState) (first : Bool)
    (e : FunPayError)
    (h : Except FunPayError (List (Int × List Message)))
    (sl : Except FunPayError (List OrderShortcut)) (rest : List CycleInput) :
    runCycles s first (⟨Except.error e, h, sl⟩ :: rest) =
      runCycles s first rest := by
  simp [runCycles, runCycle, runCyclePhases]

/-- Claim C3, counterexample: with persisted cursor 100 for chat 7, a
history fetch returning ids 95..105 on the first cycle after the restart
emits no `NewMessage` at all (delivery is suppressed while `first` is
set), although the cursor does advance to 105 — contradicting the claim
that messages 101..105 are emitted. -/
theorem c3_counterexample :
    (processHistory true [(7, 100)] [(7, exMsgs)]).2.1 = [] ∧
    (processHistory true [(7, 100)] [(7, exMsgs)]).1 = [(7, 105)] := by
  constructor <;> rfl

/-- Claim C7, counterexample: `parse_orders_list` does fail on malformed
input. The empty string parses to a document with no `div.user-link-name`
and no items; on it the function returns `Err(Unauthorized)` instead of a
structured default. -/
theorem c7_counterexample :
    parse_orders_list ⟨false, []⟩ 42 =
      Except.error FunPayError.Unauthorized := rfl

/-- Claim C8, counterexample: chat events do not all precede order
events within a cycle. The multiplex request lists `orders_counters`
before `chat_bookmarks`, and the parse loop walks the response in order,
so the order event `OrdersListChanged` is emitted before any chat event
of the same cycle. -/
theorem c8_counterexample :
    (runCycle exState0 true exInpA).events.get? 0 =
        some (Event.OrdersListChanged 0 0) ∧
    (runCycle exState0 true exInpA).events.get? 1 =
        some (Event.InitialChat exChatA) ∧
    Event.isOrderEvent (Event.OrdersListChanged 0 0) = true ∧
    Event.isChatEvent (Event.InitialChat exChatA) = true :=
  ⟨rfl, rfl, rfl, rfl⟩

/-- Claim C2 (confirmed): on the first cycle, for every chat summary
parsed from a chat_bookmarks payload the engine emits `InitialChat`,
marks a chat as a history-fetch candidate exactly when its
node-message-id is strictly positive, and emits no `NewMessage` event in
the whole cycle regardless of the fetched history or sales content. -/
theorem c2_first_cycle_initial_chats (s : PollerState) (tag : Option String)
    (f : ChatBookmarksFragment)
    (hist : Except FunPayError (List (Int × List Message)))
    (sl : Except FunPayError (List OrderShortcut))
    (hne : f.raw.isEmpty = false) :
    (parse_events_from_updates s
        ⟨some [⟨some "chat_bookmarks", tag, some f, none, none⟩]⟩ true).2.1 =
      (parse_chat_bookmarks f).map Event.InitialChat ∧
    (parse_events_from_updates s
        ⟨some [⟨some "chat_bookmarks", tag, some f, none, none⟩]⟩ true).2.2 =
      ((parse_chat_bookmarks f).filter (fun ch => 0 < ch.node_msg_id)).map
        (fun c => (c.id, some c.name)) ∧
    ∀ m, Event.NewMessage m ∉
      (runCycle s true
        ⟨Except.ok ⟨some [⟨some "chat_bookmarks", tag, some f, none, none⟩]⟩,
          hist, sl⟩).events := by
  refine ⟨?_, ?_, ?_⟩
  · simp [parse_events_from_updates, processObjects, processObject, hne,
      firstCycleChats_fst]
  · simp [parse_events_from_updates, processObjects, processObject, hne,
      firstCycleChats_snd]
  · intro m hm
    simp only [runCycle, List.mem_append] at hm
    rcases hm with (hm | hm) | hm
    · have := (runCyclePhases_mpx_shape _ _ _ _ hm).1
      simp [Event.isNewMessage] at this
    · rw [runCyclePhases_first_msgEvents] at hm
      simp at hm
    · have := runCyclePhases_sales_shape _ _ _ _ hm
      simp [Event.isSalesDiffEvent] at this

/-- Witness for C2 at a concrete non-empty payload. -/
theorem c2_first_cycle_initial_chats_witness :
    exFrag.raw.isEmpty = false ∧
    (parse_events_from_updates exState0
        ⟨some [⟨some "chat_bookmarks", some "t", some exFrag, none, none⟩]⟩
        true).2.1 = (parse_chat_bookmarks exFrag).map Event.InitialChat :=
  ⟨rfl,
    (c2_first_cycle_initial_chats exState0 (some "t") exFrag (Except.ok [])
        (Except.ok []) rfl).1⟩

/-- Claim C8 as amended: within a cycle the events come in phase order —
multiplex-parse events (which include the order event
`OrdersListChanged`, emitted in response-object order, possibly before
chat events), then the `NewMessage` events of the history phase, then the
sales-diff order events (`InitialOrder`/`NewOrder`/`OrderStatusChanged`);
and the whole of cycle N's emission precedes cycle N+1's. -/
theorem c8_amended_phase_order (s : PollerState) (first : Bool)
    (inp : CycleInput) (rest : List CycleInput) :
    (runCycle s first inp).events =
        (runCyclePhases s first inp).mpxEvents ++
          (runCyclePhases s first inp).msgEvents ++
          (runCyclePhases s first inp).salesEvents ∧
    (∀ e ∈ (runCyclePhases s first inp).mpxEvents,
        Event.isNewMessage e = false ∧ Event.isSalesDiffEvent e = false) ∧
    (∀ e ∈ (runCyclePhases s first inp).msgEvents,
        Event.isNewMessage e = true) ∧
    (∀ e ∈ (runCyclePhases s first inp).salesEvents,
        Event.isSalesDiffEvent e = true) ∧
    (runCycles s first (inp :: rest)).2.2 =
      (runCycle s first inp).events ++
        (runCycles (runCycle s first inp).state
            (runCycle s first inp).first_after rest).2.2 :=
  ⟨rfl, runCyclePhases_mpx_shape s first inp, runCyclePhases_msg_shape s first inp,
    runCyclePhases_sales_shape s first inp, rfl⟩

/-- Witness for C8's amended ordering at a concrete cycle. -/
theorem c8_amended_phase_order_witness :
    (runCycle exState0 true exInpA).events =
        (runCyclePhases exState0 true exInpA).mpxEvents ++
          (runCyclePhases exState0 true exInpA).msgEvents ++
          (runCyclePhases exState0 true exInpA).salesEvents :=
  (c8_amended_phase_order exState0 true exInpA []).1

/-- Cursor-monotonicity across one cycle: an existing cursor entry is
only ever replaced by a value at least as large. -/
theorem runCycle_cursor_mono (s : PollerState) (first : Bool)
    (inp : CycleInput) (cid v : Int)
    (h : mapGet? s.last_messages_ids cid = some v) :
    ∃ v', mapGet? (runCycle s first inp).state.last_messages_ids cid =
        some v' ∧ v ≤ v' := by
  obtain ⟨fe, hi, sa⟩ := inp
  cases fe with
  | error e => exact ⟨v, h, le_refl v⟩
  | ok u =>
      simp only [runCycle, runCyclePhases]
      rw [salesPhase_state_lmi]
      exact historyPhase_cursor_mono first _ _ hi cid v
        (by rw [parse_events_lmi]; exact h)

/-- Claim C10 (confirmed): per-chat cursor monotonicity over the
engine's run — for every chat id that has an entry in the in-memory
message cursor map, the entry never decreases across any number of
cycles; each history-phase update either keeps it or strictly increases
it, because only messages with ids strictly above the entry survive
filtering and the new value is the maximum of the survivors. -/
theorem c10_cursor_never_decreases (inps : List CycleInput) (s : PollerState)
    (first : Bool) (cid v : Int)
    (h : mapGet? s.last_messages_ids cid = some v) :
    ∃ v', mapGet? (runCycles s first inps).1.last_messages_ids cid =
        some v' ∧ v ≤ v' := by
  induction inps generalizing s first v with
  | nil => exact ⟨v, h, le_refl v⟩
  | cons inp rest ih =>
      simp only [runCycles]
      obtain ⟨v1, h1, hle1⟩ := runCycle_cursor_mono s first inp cid v h
      obtain ⟨v', h', hle'⟩ := ih _ _ _ h1
      exact ⟨v', h', le_trans hle1 hle'⟩

/-- Witness for C10 at a concrete run with a stored cursor entry. -/
theorem c10_cursor_never_decreases_witness :
    mapGet? [((7 : Int), (100 : Int))] 7 = some 100 ∧
    ∃ v', mapGet? (runCycles ⟨"m0", "o0", [], [(7, 100)], []⟩ false
        [exInpA]).1.last_messages_ids 7 = some v' ∧ (100 : Int) ≤ v' :=
  ⟨rfl, c10_cursor_never_decreases [exInpA] ⟨"m0", "o0", [], [(7, 100)], []⟩
      false 7 100 rfl⟩

/-- Claim C3 as amended: the cross-restart dedup property holds when the
history fetch happens on a non-first cycle (on the first cycle the cursor
still advances but delivery is suppressed — see the counterexample):
with stored cursor v for the chat, exactly the messages with id ≤ v are
dropped, the survivors are emitted as `NewMessage` in list order (so in
ascending id order whenever the fetched list is ascending), and the
cursor entry is set to the survivors' maximum, dirty iff it changed. -/
theorem c3_amended_dedup (cid v : Int) (msgs : List Message)
    (cursor : List (Int × Int)) (h : mapGet? cursor cid = some v) :
    (processHistory false cursor [(cid, msgs)]).2.1 =
      (msgs.filter (fun m => v < m.id)).map (fun m => Event.NewMessage m) ∧
    (processHistory false cursor [(cid, msgs)]).1 =
      (match listMaxI ((msgs.filter (fun m => v < m.id)).map (fun m => m.id)) with
       | some mx => mapInsert cursor cid mx
       | none => cursor) ∧
    (processHistory false cursor [(cid, msgs)]).2.2 =
      (match listMaxI ((msgs.filter (fun m => v < m.id)).map (fun m => m.id)) with
       | some mx => decide (v ≠ mx)
       | none => false) ∧
    (msgs.Pairwise (fun a b => a.id < b.id) →
      (msgs.filter (fun m => v < m.id)).Pairwise (fun a b => a.id < b.id)) := by
  refine ⟨?_, ?_, ?_, ?_⟩
  · simp [processHistory, h]
  · simp only [processHistory, h]
    cases hmx :
        listMaxI ((msgs.filter (fun m => v < m.id)).map (fun m => m.id)) <;>
      simp [hmx]
  · simp only [processHistory, h]
    cases hmx :
        listMaxI ((msgs.filter (fun m => v < m.id)).map (fun m => m.id)) <;>
      simp [hmx]
  · intro hp
    exact hp.filter _

/-- Witness for C3's amended dedup at the claim's 95..105 scenario. -/
theorem c3_amended_dedup_witness :
    mapGet? [((7 : Int), (100 : Int))] 7 = some 100 ∧
    (processHistory false [(7, 100)] [(7, exMsgs)]).2.1 =
      (exMsgs.filter (fun m => 100 < m.id)).map (fun m => Event.NewMessage m) :=
  ⟨rfl, (c3_amended_dedup 7 100 exMsgs [(7, 100)] rfl).1⟩

/-- The non-error branch of `parse_orders_list` always returns `Ok`. -/
theorem parse_orders_list_ok (doc : OrdersDoc) (my_id : Int)
    (ht : doc.has_user_link = true) :
    ∃ l, parse_orders_list doc my_id = Except.ok l := by
  unfold parse_orders_list
  rw [ht]
  exact ⟨_, rfl⟩

/-- Claim C7 as amended: `parse_chat_bookmarks` and `parse_message_html`
are total on every input, with missing fields resolving to the defaults
(empty string, zero, false, absent); `parse_orders_list`, however, first
checks for the logged-in marker `div.user-link-name` and returns
`Err(Unauthorized)` when it is absent — as on empty or malformed HTML —
and only otherwise always returns `Ok` with per-item defaults. -/
theorem c7_amended_extractor_totality (doc : OrdersDoc) (my_id : Int)
    (r : String) :
    (doc.has_user_link = false →
      parse_orders_list doc my_id = Except.error FunPayError.Unauthorized) ∧
    (doc.has_user_link = true →
      ∃ l, parse_orders_list doc my_id = Except.ok l) ∧
    (∀ frag : ChatBookmarksFragment,
      (parse_chat_bookmarks frag).length = frag.contact_items.length) ∧
    parse_chat_bookmarks ⟨r, [⟨none, none, none, [], none, none⟩]⟩ =
      [⟨0, "", none, 0, 0, false⟩] ∧
    parse_message_html ⟨none, none, none⟩ = (none, none) := by
  refine ⟨?_, parse_orders_list_ok doc my_id, ?_, rfl, rfl⟩
  · intro hf
    unfold parse_orders_list
    rw [hf]
    rfl
  · intro frag
    simp [parse_chat_bookmarks]

/-- Witness for C7's amended claim on a page with the logged-in marker. -/
theorem c7_amended_extractor_totality_witness :
    ((⟨true, []⟩ : OrdersDoc).has_user_link = true) ∧
    (∃ l, parse_orders_list ⟨true, []⟩ 42 = Except.ok l) :=
  ⟨rfl, (c7_amended_extractor_totality ⟨true, []⟩ 42 "").2.1 rfl⟩

/-- Claim C5 (confirmed): with a non-empty order baseline, a fetched
order absent from the baseline whose status is already Closed yields a
`NewOrder` immediately followed by an `OrderStatusChanged` for the same
order within the same cycle's sales events; an order present in both
maps with a differing status yields exactly one `OrderStatusChanged`
and no `NewOrder`. -/
theorem c5_order_diff (saved : List (String × OrderShortcut))
    (list : List OrderShortcut) (o : OrderShortcut)
    (hne : saved.isEmpty = false) (hmem : (o.id, o) ∈ buildOrderMap list) :
    (mapGet? saved o.id = none → o.status = OrderStatus.Closed →
      ∃ pre post, (processSales saved list).2 =
        pre ++ Event.NewOrder o :: Event.OrderStatusChanged o :: post) ∧
    (∀ p, mapGet? saved o.id = some p → p.status ≠ o.status →
      countE ((processSales saved list).2) (Event.OrderStatusChanged o) = 1 ∧
      countE ((processSales saved list).2) (Event.NewOrder o) = 0) := by
  have hps : (processSales saved list).2 =
      orderDiffEvents saved (buildOrderMap list) := by
    simp [processSales, hne]
  constructor
  · intro habs hclosed
    rw [hps]
    exact orderDiffEvents_new_closed_adjacent saved _ o hmem habs hclosed
  · intro p hprev hdiff
    rw [hps]
    exact orderDiffEvents_count_unique saved _ (buildOrderMap_keys_nodup list)
      (buildOrderMap_val_id list) o p hmem hprev hdiff

/-- Witness for C5 at the claim's scenario: baseline holds order A
(Paid); the new page shows a fresh order B already Closed and A now
Closed. -/
theorem c5_order_diff_witness :
    ([("A", exOrd "A" OrderStatus.Paid)] :
        List (String × OrderShortcut)).isEmpty = false ∧
    ((exOrd "B" OrderStatus.Closed).id, exOrd "B" OrderStatus.Closed) ∈
      buildOrderMap [exOrd "B" OrderStatus.Closed, exOrd "A" OrderStatus.Closed] ∧
    ∃ pre post,
      (processSales [("A", exOrd "A" OrderStatus.Paid)]
          [exOrd "B" OrderStatus.Closed, exOrd "A" OrderStatus.Closed]).2 =
        pre ++ Event.NewOrder (exOrd "B" OrderStatus.Closed) ::
          Event.OrderStatusChanged (exOrd "B" OrderStatus.Closed) :: post :=
  ⟨rfl, by decide,
    (c5_order_diff [("A", exOrd "A" OrderStatus.Paid)]
        [exOrd "B" OrderStatus.Closed, exOrd "A" OrderStatus.Closed]
        (exOrd "B" OrderStatus.Closed) rfl (by decide)).1 (by decide) rfl⟩

/-- Claim C4, counterexample: replaying an identical snapshot on the
first and second cycles does not give a quiet second cycle. The first
cycle never writes the chat baseline, so on the second cycle chat 1
(node id 5, unchanged) is compared against the default `(-1, -1, none)`
and fires `LastChatMessageChanged`. -/
theorem c4_counterexample :
    ((runCycle (runCycle exState0 true exInpA).state
          (runCycle exState0 true exInpA).first_after exInpA).events.filter
        (fun e => Event.isLastChatMessageChanged e)).length = 1 := rfl

/-- Claim C9 (confirmed): the first cycle's chat phase never writes the
chat baseline, so after cycle one `last_messages` is still the startup
value (empty); on the second cycle every chat is therefore compared
against the default `(-1, -1, none)` entry, and any chat with
node-message-id ≥ 0 fires `LastChatMessageChanged` even though its
summary is unchanged since cycle one. -/
theorem c9_first_cycle_baseline_untouched (s : PollerState)
    (tag : Option String) (f : ChatBookmarksFragment)
    (hist hist2 : Except FunPayError (List (Int × List Message)))
    (sl sl2 : Except FunPayError (List OrderShortcut))
    (hbase : s.last_messages = [])
    (hne : f.raw.isEmpty = false)
    (hnodup : ((parse_chat_bookmarks f).map (fun c => c.id)).Nodup) :
    (runCycle s true (mkChatInput tag f hist sl)).state.last_messages = [] ∧
    ∀ ch ∈ parse_chat_bookmarks f, 0 ≤ ch.node_msg_id →
      Event.LastChatMessageChanged ch ∈
        (runCycle (runCycle s true (mkChatInput tag f hist sl)).state false
          (mkChatInput tag f hist2 sl2)).events := by
  have hstate :
      (runCycle s true (mkChatInput tag f hist sl)).state.last_messages = [] := by
    simp only [runCycle, mkChatInput, runCyclePhases, salesPhase_state_lm,
      historyPhase_state_lm, parse_events_first_lm]
    exact hbase
  refine ⟨hstate, ?_⟩
  intro ch hch hnode
  set x := (runCycle s true (mkChatInput tag f hist sl)).state with hx
  have habs : ∀ c ∈ parse_chat_bookmarks f, mapGet? x.last_messages c.id = none := by
    intro c hc
    rw [hstate]
    rfl
  have hd := diffChats_fires_from_default x.last_messages (parse_chat_bookmarks f)
      hnodup habs ch hch hnode
  have hdecomp : (runCycle x false (mkChatInput tag f hist2 sl2)).events =
      (runCyclePhases x false (mkChatInput tag f hist2 sl2)).mpxEvents ++
        (runCyclePhases x false (mkChatInput tag f hist2 sl2)).msgEvents ++
        (runCyclePhases x false (mkChatInput tag f hist2 sl2)).salesEvents := rfl
  rw [hdecomp]
  refine List.mem_append_left _ (List.mem_append_left _ ?_)
  have hmpx : (runCyclePhases x false (mkChatInput tag f hist2 sl2)).mpxEvents =
      (if (parse_chat_bookmarks f).isEmpty then [] else [Event.ChatsListChanged]) ++
        (diffChats x.last_messages (parse_chat_bookmarks f)).2.1 := by
    simp [runCyclePhases, mkChatInput, parse_events_from_updates, processObjects,
      processObject, hne]
  rw [hmpx]
  exact List.mem_append_right _ hd

/-- Witness for C9 at a concrete chat with node-message-id 5 ≥ 0. -/
theorem c9_first_cycle_baseline_untouched_witness :
    exState0.last_messages = [] ∧
    Event.LastChatMessageChanged exChatA ∈
      (runCycle (runCycle exState0 true
          (mkChatInput (some "t") exFrag (Except.ok []) (Except.ok []))).state
        false (mkChatInput (some "t") exFrag (Except.ok []) (Except.ok []))).events :=
  ⟨rfl,
    (c9_first_cycle_baseline_untouched exState0 (some "t") exFrag (Except.ok [])
        (Except.ok []) (Except.ok []) (Except.ok []) rfl rfl (by decide)).2
      exChatA (by decide) (by decide)⟩

/-- Claim C4 as amended: replaying an identical snapshot (same
chat_bookmarks payload, same orders page) on two consecutive cycles
neither of which is the first — the counterexample shows the pair
(first, second) breaks the original claim — yields zero
`LastChatMessageChanged` and zero `OrderStatusChanged` events on the
second of the two cycles, provided the payload lists each chat id once. -/
theorem c4_amended_idempotent (s : PollerState) (tagO tagC : Option String)
    (buyer seller : Option Int) (f : ChatBookmarksFragment)
    (hi hi2 : Except FunPayError (List (Int × List Message)))
    (list : List OrderShortcut)
    (hnodup : ((parse_chat_bookmarks f).map (fun c => c.id)).Nodup) :
    ((runCycle (runCycle s false (mkMpxInput tagO tagC buyer seller f hi list)).state
        false (mkMpxInput tagO tagC buyer seller f hi2 list)).events.filter
      (fun e => Event.isLastChatMessageChanged e)) = [] ∧
    ((runCycle (runCycle s false (mkMpxInput tagO tagC buyer seller f hi list)).state
        false (mkMpxInput tagO tagC buyer seller f hi2 list)).events.filter
      (fun e => Event.isOrderStatusChanged e)) = [] := by
  set x := (runCycle s false (mkMpxInput tagO tagC buyer seller f hi list)).state
    with hx
  have hsaved : x.saved_orders = buildOrderMap list := by
    rw [hx]
    simp only [runCycle, mkMpxInput, runCyclePhases]
    simp [salesPhase, processSales_state]
  have hdecomp :
      (runCycle x false (mkMpxInput tagO tagC buyer seller f hi2 list)).events =
      (runCyclePhases x false (mkMpxInput tagO tagC buyer seller f hi2 list)).mpxEvents ++
        (runCyclePhases x false (mkMpxInput tagO tagC buyer seller f hi2 list)).msgEvents ++
        (runCyclePhases x false (mkMpxInput tagO tagC buyer seller f hi2 list)).salesEvents :=
    rfl
  have hmsgL :
      ((runCyclePhases x false (mkMpxInput tagO tagC buyer seller f hi2 list)).msgEvents).filter
        (fun e => Event.isLastChatMessageChanged e) = [] :=
    filter_shape_nil (fun e he => by
      have := runCyclePhases_msg_shape x false _ e he
      cases e <;> simp_all [Event.isNewMessage, Event.isLastChatMessageChanged])
  have hmsgO :
      ((runCyclePhases x false (mkMpxInput tagO tagC buyer seller f hi2 list)).msgEvents).filter
        (fun e => Event.isOrderStatusChanged e) = [] :=
    filter_shape_nil (fun e he => by
      have := runCyclePhases_msg_shape x false _ e he
      cases e <;> simp_all [Event.isNewMessage, Event.isOrderStatusChanged])
  have hsalesL :
      ((runCyclePhases x false (mkMpxInput tagO tagC buyer seller f hi2 list)).salesEvents).filter
        (fun e => Event.isLastChatMessageChanged e) = [] :=
    filter_shape_nil (fun e he => by
      have := runCyclePhases_sales_shape x false _ e he
      cases e <;> simp_all [Event.isSalesDiffEvent, Event.isLastChatMessageChanged])
  have hsalesO :
      ((runCyclePhases x false (mkMpxInput tagO tagC buyer seller f hi2 list)).salesEvents).filter
        (fun e => Event.isOrderStatusChanged e) = [] := by
    apply filter_shape_nil
    intro e he
    simp only [runCyclePhases, mkMpxInput, salesPhase] at he
    refine processSales_replay_no_osc _ list ?_ e he
    rw [historyPhase_state_saved, parse_events_saved]
    exact hsaved
  have hmpxO :
      ((runCyclePhases x false (mkMpxInput tagO tagC buyer seller f hi2 list)).mpxEvents).filter
        (fun e => Event.isOrderStatusChanged e) = [] :=
    filter_shape_nil (fun e he => by
      have := (runCyclePhases_mpx_shape x false _ e he).2
      cases e <;> simp_all [Event.isSalesDiffEvent, Event.isOrderStatusChanged])
  have hmpxL :
      ((runCyclePhases x false (mkMpxInput tagO tagC buyer seller f hi2 list)).mpxEvents).filter
        (fun e => Event.isLastChatMessageChanged e) = [] := by
    by_cases hraw : f.raw.isEmpty
    · simp [runCyclePhases, mkMpxInput, parse_events_from_updates, processObjects,
        processObject, hraw, Event.isLastChatMessageChanged]
    · have hlm1 : x.last_messages =
          (diffChats s.last_messages (parse_chat_bookmarks f)).1 := by
        rw [hx]
        simp only [runCycle, mkMpxInput, runCyclePhases, salesPhase_state_lm,
          historyPhase_state_lm]
        simp [parse_events_from_updates, processObjects, processObject, hraw]
      have hstable : diffChats x.last_messages (parse_chat_bookmarks f) =
          (x.last_messages, [], []) := by
        apply diffChats_stable
        intro c hc
        rw [hlm1]
        exact diffChats_get_final s.last_messages _ hnodup c hc
      simp [runCyclePhases, mkMpxInput, parse_events_from_updates, processObjects,
        processObject, hraw, hstable, Event.isLastChatMessageChanged,
        apply_ite (List.filter (fun e => Event.isLastChatMessageChanged e))]
  constructor
  · rw [hdecomp, List.filter_append, List.filter_append, hmpxL, hmsgL, hsalesL]
    rfl
  · rw [hdecomp, List.filter_append, List.filter_append, hmpxO, hmsgO, hsalesO]
    rfl

/-- Witness for C4's amended idempotence at a concrete snapshot. -/
theorem c4_amended_idempotent_witness :
    ((parse_chat_bookmarks exFrag).map (fun c => c.id)).Nodup ∧
    ((runCycle (runCycle exState0 false
          (mkMpxInput none none none none exFrag (Except.ok []) [])).state
        false (mkMpxInput none none none none exFrag (Except.ok []) [])).events.filter
      (fun e => Event.isLastChatMessageChanged e)) = [] :=
  ⟨by decide,
    (c4_amended_idempotent exState0 none none none none exFrag (Except.ok [])
        (Except.ok []) [] (by decide)).1⟩

end FunPay
